import Mathlib

set_option maxHeartbeats 1000000

/-!
Shallow embedding of the relational materialization engine of the
MongoDB-To-PostgreSQL repository, translated from `src/put-to-postgres.js`
(the active implementation, `putToPostgres`, lines 138-314).

Modelling conventions:
* JavaScript values occurring in migrated rows are modelled by `Value`
  (null, undefined, booleans, numbers, strings, arrays).  Plain objects
  are modelled as ordered association lists (`JsObj`), matching the
  insertion-order semantics of JS object keys; JS `Map`s of
  mongo-id to sql-id are `IdMap`s with `Map.set` / `Map.get` semantics.
* The Postgres table targeted by one call is modelled by `Db`: a serial
  id counter plus the stored rows, each keeping the text stored in the
  unique `mongo_id` column.  The batched insert fails exactly when it
  would violate the uniqueness constraint on `mongo_id` (the constraint
  the code itself tries to ensure at lines 159-170).
* `putToPostgres` returns the externally visible state together with an
  `Except` signalling whether the transaction threw.  On failure the
  database effects are rolled back, while the in-memory registry and the
  emitted warnings keep the mutations performed up to the failure point,
  exactly as the JavaScript `Map` object would.
-/

/-- Value models a JavaScript runtime value as it occurs in migrated rows:
null, undefined, booleans, numbers, strings and arrays. -/
inductive Value where
  | vNull
  | vUndef
  | vBool (b : Bool)
  | vNum (n : Int)
  | vStr (s : String)
  | vArr (xs : List Value)

mutual

/-- Value.decEq decides equality of JavaScript values, recursing through
arrays. -/
def Value.decEq : (a b : Value) → Decidable (a = b)
  | .vNull, .vNull => isTrue rfl
  | .vNull, .vUndef => isFalse (fun h => Value.noConfusion h)
  | .vNull, .vBool _ => isFalse (fun h => Value.noConfusion h)
  | .vNull, .vNum _ => isFalse (fun h => Value.noConfusion h)
  | .vNull, .vStr _ => isFalse (fun h => Value.noConfusion h)
  | .vNull, .vArr _ => isFalse (fun h => Value.noConfusion h)
  | .vUndef, .vNull => isFalse (fun h => Value.noConfusion h)
  | .vUndef, .vUndef => isTrue rfl
  | .vUndef, .vBool _ => isFalse (fun h => Value.noConfusion h)
  | .vUndef, .vNum _ => isFalse (fun h => Value.noConfusion h)
  | .vUndef, .vStr _ => isFalse (fun h => Value.noConfusion h)
  | .vUndef, .vArr _ => isFalse (fun h => Value.noConfusion h)
  | .vBool _, .vNull => isFalse (fun h => Value.noConfusion h)
  | .vBool _, .vUndef => isFalse (fun h => Value.noConfusion h)
  | .vBool a, .vBool b =>
    if h : a = b then isTrue (by rw [h]) else
      isFalse (fun hh => by cases hh; exact h rfl)
  | .vBool _, .vNum _ => isFalse (fun h => Value.noConfusion h)
  | .vBool _, .vStr _ => isFalse (fun h => Value.noConfusion h)
  | .vBool _, .vArr _ => isFalse (fun h => Value.noConfusion h)
  | .vNum _, .vNull => isFalse (fun h => Value.noConfusion h)
  | .vNum _, .vUndef => isFalse (fun h => Value.noConfusion h)
  | .vNum _, .vBool _ => isFalse (fun h => Value.noConfusion h)
  | .vNum a, .vNum b =>
    if h : a = b then isTrue (by rw [h]) else
      isFalse (fun hh => by cases hh; exact h rfl)
  | .vNum _, .vStr _ => isFalse (fun h => Value.noConfusion h)
  | .vNum _, .vArr _ => isFalse (fun h => Value.noConfusion h)
  | .vStr _, .vNull => isFalse (fun h => Value.noConfusion h)
  | .vStr _, .vUndef => isFalse (fun h => Value.noConfusion h)
  | .vStr _, .vBool _ => isFalse (fun h => Value.noConfusion h)
  | .vStr _, .vNum _ => isFalse (fun h => Value.noConfusion h)
  | .vStr a, .vStr b =>
    if h : a = b then isTrue (by rw [h]) else
      isFalse (fun hh => by cases hh; exact h rfl)
  | .vStr _, .vArr _ => isFalse (fun h => Value.noConfusion h)
  | .vArr _, .vNull => isFalse (fun h => Value.noConfusion h)
  | .vArr _, .vUndef => isFalse (fun h => Value.noConfusion h)
  | .vArr _, .vBool _ => isFalse (fun h => Value.noConfusion h)
  | .vArr _, .vNum _ => isFalse (fun h => Value.noConfusion h)
  | .vArr _, .vStr _ => isFalse (fun h => Value.noConfusion h)
  | .vArr xs, .vArr ys =>
    match Value.decEqList xs ys with
    | isTrue h => isTrue (by rw [h])
    | isFalse h => isFalse (fun hh => by cases hh; exact h rfl)

/-- Value.decEqList decides equality of lists of JavaScript values. -/
def Value.decEqList : (xs ys : List Value) → Decidable (xs = ys)
  | [], [] => isTrue rfl
  | [], _ :: _ => isFalse (fun h => List.noConfusion h)
  | _ :: _, [] => isFalse (fun h => List.noConfusion h)
  | x :: xs, y :: ys =>
    match Value.decEq x y with
    | isTrue h1 =>
      match Value.decEqList xs ys with
      | isTrue h2 => isTrue (by rw [h1, h2])
      | isFalse h2 => isFalse (fun hh => by cases hh; exact h2 rfl)
    | isFalse h1 => isFalse (fun hh => by cases hh; exact h1 rfl)

end

instance : DecidableEq Value := Value.decEq

/-- exceptDecEq decides equality of `Except` results, so concrete runs can
be checked by `decide`. -/
def exceptDecEq {ε α : Type} [DecidableEq ε] [DecidableEq α] :
    DecidableEq (Except ε α) := fun a b =>
  match a, b with
  | .ok x, .ok y =>
    if h : x = y then isTrue (by rw [h]) else
      isFalse (fun hh => by cases hh; exact h rfl)
  | .ok _, .error _ => isFalse (fun h => Except.noConfusion h)
  | .error _, .ok _ => isFalse (fun h => Except.noConfusion h)
  | .error x, .error y =>
    if h : x = y then isTrue (by rw [h]) else
      isFalse (fun hh => by cases hh; exact h rfl)

instance {ε α : Type} [DecidableEq ε] [DecidableEq α] :
    DecidableEq (Except ε α) := exceptDecEq

mutual

/-- Value.toStr is JavaScript `String(v)`: arrays join their elements with
commas, null and undefined print their names. -/
def Value.toStr : Value → String
  | .vNull => "null"
  | .vUndef => "undefined"
  | .vBool b => if b then "true" else "false"
  | .vNum n => toString n
  | .vStr s => s
  | .vArr xs => Value.toStrList xs

def Value.toStrList : List Value → String
  | [] => ""
  | [x] => Value.toStr x
  | x :: y :: xs => Value.toStr x ++ "," ++ Value.toStrList (y :: xs)

end

/-- Value.truthy is JavaScript truthiness: null, undefined, false, 0 and the
empty string are falsy, every array is truthy. -/
def Value.truthy : Value → Bool
  | .vNull => false
  | .vUndef => false
  | .vBool b => b
  | .vNum n => n != 0
  | .vStr s => s != ""
  | .vArr _ => true

/-- Value.isNullish is the loose comparison `v == null`, true exactly for
null and undefined. -/
def Value.isNullish : Value → Bool
  | .vNull => true
  | .vUndef => true
  | _ => false

/-- Value.isArr is `Array.isArray(v)`. -/
def Value.isArr : Value → Bool
  | .vArr _ => true
  | _ => false

/-- truthyO lifts truthiness to an optional property read: an absent
property is `undefined`, hence falsy. -/
def truthyO : Option Value → Bool
  | none => false
  | some v => v.truthy

/-- JsObj models a plain JavaScript object as an insertion-ordered
association list from property names to values. -/
abbrev JsObj := List (String × Value)

/-- JsObj.hasOwn is `Object.prototype.hasOwnProperty.call(r, k)`. -/
def JsObj.hasOwn (r : JsObj) (k : String) : Bool :=
  r.any (fun p => p.1 == k)

/-- JsObj.get is the property read `r[k]`, `none` when the property is
absent. -/
def JsObj.get (r : JsObj) (k : String) : Option Value :=
  (r.find? (fun p => p.1 == k)).map (fun p => p.2)

/-- JsObj.set is the property write `r[k] = v`: an existing key keeps its
position, a new key is appended, as JS objects do. -/
def JsObj.set (r : JsObj) (k : String) (v : Value) : JsObj :=
  if r.hasOwn k then r.map (fun p => if p.1 == k then (k, v) else p)
  else r ++ [(k, v)]

/-- JsObj.del is `delete r[k]`. -/
def JsObj.del (r : JsObj) (k : String) : JsObj :=
  r.filter (fun p => !(p.1 == k))

/-- IdMap models a JavaScript `Map` from mongo-id strings to assigned SQL
ids, as used for each collection inside the ids registry. -/
abbrev IdMap := List (String × Nat)

/-- mapHas is `m.has(k)` on an `IdMap`. -/
def mapHas (m : IdMap) (k : String) : Bool :=
  m.any (fun p => p.1 == k)

/-- mapGet is `m.get(k)` on an `IdMap`, `none` for a missing key. -/
def mapGet (m : IdMap) (k : String) : Option Nat :=
  (m.find? (fun p => p.1 == k)).map (fun p => p.2)

/-- mapSet is `m.set(k, v)` on an `IdMap`: an existing key keeps its
position and gets the new value, a new key is appended. -/
def mapSet (m : IdMap) (k : String) (v : Nat) : IdMap :=
  if mapHas m k then m.map (fun p => if p.1 == k then (k, v) else p)
  else m ++ [(k, v)]

/-- Registry models the shared `idsRegistry` object: an insertion-ordered
map from collection name to that collection's `IdMap`. -/
abbrev Registry := List (String × IdMap)

/-- regHas is the truthiness test `idsRegistry[c]` used at line 152. -/
def regHas (reg : Registry) (c : String) : Bool :=
  reg.any (fun p => p.1 == c)

/-- regGetMap reads `idsRegistry[c]`, `none` when the collection has no
sub-map yet. -/
def regGetMap (reg : Registry) (c : String) : Option IdMap :=
  (reg.find? (fun p => p.1 == c)).map (fun p => p.2)

/-- regGetPair is `idsRegistry[c].get(s)` guarded by existence of the
sub-map. -/
def regGetPair (reg : Registry) (c s : String) : Option Nat :=
  (regGetMap reg c).bind (fun m => mapGet m s)

/-- regSetPair is `idsRegistry[c].set(s, t)`, the registration operation the
upsert performs at lines 251 and 258.  At both call sites the sub-map for
`c` exists; for totality a missing sub-map is created. -/
def regSetPair (reg : Registry) (c s : String) (t : Nat) : Registry :=
  if regHas reg c then
    reg.map (fun p => if p.1 == c then (c, mapSet p.2 s t) else p)
  else reg ++ [(c, [(s, t)])]

/-- ensureColl is lines 152-154: create an empty ids map for the collection
when none exists yet. -/
def ensureColl (reg : Registry) (c : String) : Registry :=
  if regHas reg c then reg else reg ++ [(c, [])]

/-- Warn models one `console.warn` call emitted by `putToPostgres`; the
constructors name the warning sites of the source. -/
inductive Warn where
  | redefineFail (field msg : String)
  | fkMissingCollection (field fc : String)
  | fkLostArray (field : String) (lost : Nat)
  | fkMissingValue (field v : String)
  | dropArray (field : String)
  | linkNoSelfId (mid : String)
  | linkNoForeign (v : String)
deriving DecidableEq

/-- LinkSpec is one `links` entry: the 4-tuple
`[linkTable, selfIdCol, foreignIdCol, transform?]` of the options type
(lines 119-121).  Note that the tuple has no slot naming the foreign
collection the array points at. -/
structure LinkSpec where
  linkTable : String
  selfIdCol : String
  foreignIdCol : String
  transform : Option (Nat → Nat → JsObj → JsObj)

/-- PutOptions is the `options` argument of `putToPostgres`; every JS
object of the configuration is kept as its ordered entry list, matching
the `Object.entries` iteration the code performs.  Redefine mappers may
throw, which `Except` models. -/
structure PutOptions where
  rename : List (String × String) := []
  redefine : List (String × (Value → JsObj → Except String Value)) := []
  foreignKeys : List (String × String) := []
  links : List (String × LinkSpec) := []

/-- renameStep is one iteration of the rename stage (lines 177-182):
copy the old property to the new name, then delete the old one. -/
def renameStep (r : JsObj) (p : String × String) : JsObj :=
  if r.hasOwn p.1 then (r.set p.2 ((r.get p.1).getD Value.vUndef)).del p.1
  else r

/-- redefineStep is one iteration of the redefine stage (lines 185-193):
when the field is present, replace its value with the mapper's result; a
throwing mapper only logs a warning and leaves the field unchanged. -/
def redefineStep (rw : JsObj × List Warn)
    (p : String × (Value → JsObj → Except String Value)) : JsObj × List Warn :=
  if rw.1.hasOwn p.1 then
    match p.2 ((rw.1.get p.1).getD Value.vUndef) rw.1 with
    | .ok v => (rw.1.set p.1 v, rw.2)
    | .error e => (rw.1, rw.2 ++ [Warn.redefineFail p.1 e])
  else rw

/-- fkStep is one iteration of the foreign-key mapping stage
(lines 196-227): a present, non-nullish field is replaced by the mapped
SQL id from the foreign collection's ids map; a missing map or missing
entry yields null plus a warning; an array value defensively keeps the
first mapped element. -/
def fkStep (reg : Registry) (rw : JsObj × List Warn)
    (p : String × String) : JsObj × List Warn :=
  if !rw.1.hasOwn p.1 then rw
  else
    let oldVal := (rw.1.get p.1).getD Value.vUndef
    if oldVal.isNullish then rw
    else
      match regGetMap reg p.2 with
      | none => (rw.1.set p.1 Value.vNull,
                 rw.2 ++ [Warn.fkMissingCollection p.1 p.2])
      | some m =>
        match oldVal with
        | Value.vArr xs =>
          let mapped := xs.filterMap
            (fun idv => if idv.isNullish then none else mapGet m idv.toStr)
          let w2 := if mapped.length != xs.length then
              rw.2 ++ [Warn.fkLostArray p.1 (xs.length - mapped.length)]
            else rw.2
          let newV := match mapped with
            | [] => Value.vNull
            | h :: _ => Value.vNum (Int.ofNat h)
          (rw.1.set p.1 newV, w2)
        | v =>
          match mapGet m v.toStr with
          | none => (rw.1.set p.1 Value.vNull,
                     rw.2 ++ [Warn.fkMissingValue p.1 v.toStr])
          | some i => (rw.1.set p.1 (Value.vNum (Int.ofNat i)), rw.2)

/-- linksHas is the truthiness test `links[key]` of line 231: a configured
entry (an array object) is always truthy, a missing key is undefined. -/
def linksHas (links : List (String × LinkSpec)) (k : String) : Bool :=
  links.any (fun p => p.1 == k)

/-- elideStage is lines 230-235: drop every array-valued field that is not
routed through the links configuration, warning once per dropped field. -/
def elideStage (links : List (String × LinkSpec))
    (rw : JsObj × List Warn) : JsObj × List Warn :=
  (rw.1.filter (fun p => !(p.2.isArr && !(linksHas links p.1))),
   rw.2 ++ rw.1.filterMap (fun p =>
     if p.2.isArr && !(linksHas links p.1) then some (Warn.dropArray p.1)
     else none))

/-- transformRow is the per-row transformation of lines 173-238: start from
a fresh shallow copy of the source row, then rename, redefine, map foreign
keys, and elide unlinked arrays, collecting the warnings in order. -/
def transformRow (opts : PutOptions) (reg : Registry) (row : JsObj) :
    JsObj × List Warn :=
  let r1 := opts.rename.foldl renameStep row
  let rw2 := opts.redefine.foldl redefineStep (r1, [])
  let rw3 := opts.foreignKeys.foldl (fkStep reg) rw2
  elideStage opts.links rw3

/-- prepareAll maps `transformRow` over the input rows (line 173),
concatenating the warnings in row order. -/
def prepareAll (opts : PutOptions) (reg : Registry) (rows : List JsObj) :
    List JsObj × List Warn :=
  rows.foldl
    (fun acc row =>
      let rw := transformRow opts reg row
      (acc.1 ++ [rw.1], acc.2 ++ rw.2))
    ([], [])

/-- DbRow is one stored row of the target table: the serial id, the text
stored in the unique `mongo_id` column, and the inserted record. -/
structure DbRow where
  id : Nat
  mongoText : String
  data : JsObj
deriving DecidableEq

/-- Db is the state of the target table: the next serial id and the stored
rows. -/
structure Db where
  nextId : Nat := 1
  rows : List DbRow := []
deriving DecidableEq

/-- mongoText is `String(r.mongo_id)`: the text Postgres stores for the
row's `mongo_id` value, `undefined` when the property is absent. -/
def mongoText (r : JsObj) : String :=
  match r.get "mongo_id" with
  | some v => v.toStr
  | none => "undefined"

/-- collectMongoIds is line 241: `prepared.map(r => r.mongo_id)
.filter(Boolean)` — gather the truthy mongo ids of the prepared rows. -/
def collectMongoIds (prepared : List JsObj) : List Value :=
  (prepared.filterMap (fun r => r.get "mongo_id")).filter Value.truthy

/-- selectExisting is the `whereIn` query of line 242: the stored rows
whose `mongo_id` text equals the SQL text of one of the candidates. -/
def selectExisting (db : Db) (mongoIds : List Value) : List DbRow :=
  db.rows.filter (fun row => (mongoIds.map Value.toStr).contains row.mongoText)

/-- buildEm is line 243, `new Map(existing.map(x => [x.mongo_id, x.id]))`:
later duplicates overwrite earlier ones as the `Map` constructor does. -/
def buildEm (xs : List DbRow) : IdMap :=
  xs.foldl (fun m x => mapSet m x.mongoText x.id) []

/-- valueIsStrKey classifies an optional property value as a usable `Map`
key: JavaScript `Map.has` and `Map.get` compare keys strictly, so only a
string value can match the string keys the database query returned. -/
def valueIsStrKey : Option Value → Option String
  | some (Value.vStr s) => some s
  | _ => none

/-- emHas is `existingMap.has(r.mongo_id)` with strict key comparison. -/
def emHas (em : IdMap) (v : Option Value) : Bool :=
  match valueIsStrKey v with
  | some s => mapHas em s
  | none => false

/-- emGet is `existingMap.get(r.mongo_id)` with strict key comparison. -/
def emGet (em : IdMap) (v : Option Value) : Option Nat :=
  match valueIsStrKey v with
  | some s => mapGet em s
  | none => none

/-- toInsertOf is line 245: the prepared rows with a truthy `mongo_id` not
present among the existing rows. -/
def toInsertOf (em : IdMap) (prepared : List JsObj) : List JsObj :=
  prepared.filter (fun r =>
    truthyO (r.get "mongo_id") && !(emHas em (r.get "mongo_id")))

/-- toSkipOf is line 246: the prepared rows with a truthy `mongo_id` that
already exists in the table. -/
def toSkipOf (em : IdMap) (prepared : List JsObj) : List JsObj :=
  prepared.filter (fun r =>
    truthyO (r.get "mongo_id") && emHas em (r.get "mongo_id"))

/-- skipRegistryUpdate is lines 248-253: record the existing SQL id of
every skipped row in the collection's ids map. -/
def skipRegistryUpdate (em : IdMap) (coll : String) (reg : Registry)
    (toSkip : List JsObj) : Registry :=
  toSkip.foldl
    (fun rg r =>
      match valueIsStrKey (r.get "mongo_id"), emGet em (r.get "mongo_id") with
      | some s, some i => regSetPair rg coll s i
      | _, _ => rg)
    reg

/-- nodupB decides that a list of strings has no duplicates. -/
def nodupB : List String → Bool
  | [] => true
  | x :: xs => !(xs.contains x) && nodupB xs

/-- uniqueInsertOk models the unique constraint on the `mongo_id` column
that the code ensures at lines 159-170: the batched insert of line 256
succeeds exactly when the inserted `mongo_id` texts are pairwise distinct
and absent from the table. -/
def uniqueInsertOk (db : Db) (texts : List String) : Bool :=
  nodupB texts &&
    texts.all (fun t => !((db.rows.map DbRow.mongoText).contains t))

/-- insertRowsAux assigns consecutive serial ids to the batch of new rows,
as the Postgres serial column does for the insert of line 256. -/
def insertRowsAux (nextId : Nat) : List JsObj → List DbRow
  | [] => []
  | r :: rest => DbRow.mk nextId (mongoText r) r :: insertRowsAux (nextId + 1) rest

/-- insertRows is the batched insert of line 256: each new row receives the
next serial id, and the insert returns the `(id, mongo_id)` pairs. -/
def insertRows (db : Db) (toIns : List JsObj) : Db × List (Nat × String) :=
  let newRows := insertRowsAux db.nextId toIns
  ({ nextId := db.nextId + toIns.length, rows := db.rows ++ newRows },
   newRows.map (fun x => (x.id, x.mongoText)))

/-- insertRegistryUpdate is lines 257-259: record the assigned SQL id of
every inserted row in the collection's ids map. -/
def insertRegistryUpdate (coll : String) (reg : Registry)
    (inserted : List (Nat × String)) : Registry :=
  inserted.foldl (fun rg x => regSetPair rg coll x.2 x.1) reg

/-- scanRegistry is the element-resolution loop of lines 283-289: walk the
registry's collections in order and return the first sub-map's value for
the key, breaking at the first sub-map that has the key. -/
def scanRegistry (reg : Registry) (key : String) : Option Nat :=
  match reg.find? (fun p => mapHas p.2 key) with
  | some p => mapGet p.2 key
  | none => none

/-- linkElemStep is the element body of lines 278-298: resolve the foreign
SQL id by scanning the whole registry; a falsy result is skipped with a
warning, otherwise one link row is built from the two id columns plus the
optional transform's extra attributes. -/
def linkElemStep (reg : Registry) (spec : LinkSpec) (selfSqlId : Nat)
    (raw : JsObj) (acc : List JsObj × List Warn) (e : Value) :
    List JsObj × List Warn :=
  let fid := (scanRegistry reg e.toStr).getD 0
  if fid == 0 then (acc.1, acc.2 ++ [Warn.linkNoForeign e.toStr])
  else
    let base := JsObj.set (JsObj.set [] spec.selfIdCol
        (Value.vNum (Int.ofNat selfSqlId))) spec.foreignIdCol
        (Value.vNum (Int.ofNat fid))
    let extra := match spec.transform with
      | some f => f selfSqlId fid raw
      | none => []
    (acc.1 ++ [extra.foldl (fun b q => b.set q.1 q.2) base], acc.2)

/-- linkRowStep is the per-record body of lines 269-299: records without a
non-empty array in the field are skipped, a record whose own SQL id is
falsy in the registry is skipped with a warning, and otherwise every
element is processed by `linkElemStep`. -/
def linkRowStep (reg : Registry) (coll : String) (arrayField : String)
    (spec : LinkSpec) (acc : List JsObj × List Warn) (raw : JsObj) :
    List JsObj × List Warn :=
  match raw.get arrayField with
  | some (Value.vArr xs) =>
    if xs.isEmpty then acc
    else
      let selfSqlId := (regGetPair reg coll (mongoText raw)).getD 0
      if selfSqlId == 0 then
        (acc.1, acc.2 ++ [Warn.linkNoSelfId (mongoText raw)])
      else xs.foldl (linkElemStep reg spec selfSqlId raw) acc
  | _ => acc

/-- gatherLinkRows is lines 267-299 for one links entry: for each original
row, gather the link rows and warnings produced by `linkRowStep`. -/
def gatherLinkRows (reg : Registry) (coll : String) (arrayField : String)
    (spec : LinkSpec) (rows : List JsObj) : List JsObj × List Warn :=
  rows.foldl (linkRowStep reg coll arrayField spec) ([], [])

/-- elemCount counts the elements a record contributes for a configured
array field: the length of the array when the field holds one, zero
otherwise. -/
def elemCount (arrayField : String) (raw : JsObj) : Nat :=
  match raw.get arrayField with
  | some (Value.vArr xs) => xs.length
  | _ => 0

/-- arrayElems lists the elements a record holds in a configured array
field: the array's elements when the field holds an array, nothing
otherwise. -/
def arrayElems (arrayField : String) (raw : JsObj) : List Value :=
  match raw.get arrayField with
  | some (Value.vArr xs) => xs
  | _ => []

/-- Modelled from the spec: `resolveAny(source_id) → (collection, target_id)
| absent` scans all collections' sub-maps of the translation registry in
order and returns the first collection whose sub-map contains the
source_id, together with the registered target_id. -/
def specResolveAny (reg : Registry) (sid : String) :
    Option (String × Nat) :=
  match reg.find? (fun p => mapHas p.2 sid) with
  | some p => (mapGet p.2 sid).map (fun t => (p.1, t))
  | none => none

/-- linkPhase is lines 266-310: gather and insert the link rows of every
links entry; the rows are tagged with their link table. -/
def linkPhase (reg : Registry) (coll : String)
    (links : List (String × LinkSpec)) (rows : List JsObj) :
    List (String × JsObj) × List Warn :=
  links.foldl
    (fun acc p =>
      let lw := gatherLinkRows reg coll p.1 p.2 rows
      (acc.1 ++ lw.1.map (fun r => (p.2.linkTable, r)), acc.2 ++ lw.2))
    ([], [])

/-- PutState is the externally visible state of one `putToPostgres` call:
the target table, the link tables, the shared in-memory ids registry, and
the warnings printed so far. -/
structure PutState where
  db : Db
  linkDb : List (String × JsObj)
  registry : Registry
  warns : List Warn
deriving DecidableEq

/-- putToPostgres is the active implementation of lines 138-314.  Empty
input returns immediately; otherwise the collection's ids map is ensured,
the rows are transformed, split into already-existing and new by
`mongo_id`, the skipped and inserted ids are recorded in the registry, and
the link rows are gathered from the original rows and written.  The
transaction wrapper of line 156 is modelled by the `Except` result: when
the batched insert violates the unique `mongo_id` constraint, the database
and link-table effects are rolled back, while the in-memory registry keeps
every mutation performed before the failure, as a JavaScript `Map` does. -/
def putToPostgres (rows : List JsObj) (opts : PutOptions)
    (idsRegistry : Registry) (selfCollectionName : String) (db : Db)
    (linkDb : List (String × JsObj)) : PutState × Except String Unit :=
  if rows.isEmpty then
    (⟨db, linkDb, idsRegistry, []⟩, .ok ())
  else
    let reg0 := ensureColl idsRegistry selfCollectionName
    let pw := prepareAll opts reg0 rows
    let prepared := pw.1
    let em := buildEm (selectExisting db (collectMongoIds prepared))
    let toIns := toInsertOf em prepared
    let toSk := toSkipOf em prepared
    let reg1 := skipRegistryUpdate em selfCollectionName reg0 toSk
    if uniqueInsertOk db (toIns.map mongoText) then
      let dbIns := insertRows db toIns
      let reg2 := insertRegistryUpdate selfCollectionName reg1 dbIns.2
      let lw := linkPhase reg2 selfCollectionName opts.links rows
      (⟨dbIns.1, linkDb ++ lw.1, reg2, pw.2 ++ lw.2⟩, .ok ())
    else
      (⟨db, linkDb, reg1, pw.2⟩, .error "insert failed")

/-- Heap models the JavaScript row store explicitly, so that the aliasing
behaviour of the transform pipeline is visible: each cell holds one record
object, and property assignments are writes to a cell. -/
structure Heap where
  cells : List JsObj
deriving DecidableEq

/-- Heap.read dereferences a cell. -/
def Heap.read (h : Heap) (i : Nat) : JsObj :=
  h.cells.getD i []

/-- Heap.write overwrites a cell. -/
def Heap.write (h : Heap) (i : Nat) (r : JsObj) : Heap :=
  ⟨h.cells.set i r⟩

/-- prepareRowH is the transform pipeline of lines 173-238 with the row
store explicit: `let r = ...row` allocates a fresh cell holding a shallow
copy of the source row, and every subsequent stage writes that fresh cell
only, never the cell of the source row.  The result is the heap, the index
of the prepared copy, and the warnings. -/
def prepareRowH (opts : PutOptions) (reg : Registry) (h : Heap) (i : Nat) :
    Heap × Nat × List Warn :=
  let j := h.cells.length
  let h1 : Heap := ⟨h.cells ++ [h.read i]⟩
  let h2 := h1.write j (opts.rename.foldl renameStep (h1.read j))
  let rw2 := opts.redefine.foldl redefineStep (h2.read j, [])
  let h3 := h2.write j rw2.1
  let rw3 := opts.foreignKeys.foldl (fkStep reg) (h3.read j, rw2.2)
  let h4 := h3.write j rw3.1
  let rw4 := elideStage opts.links (h4.read j, rw3.2)
  let h5 := h4.write j rw4.1
  (h5, j, rw4.2)

/-- prepareStepH processes one row index of the `rows.map` loop of
line 173 against the explicit row store. -/
def prepareStepH (opts : PutOptions) (reg : Registry)
    (acc : Heap × List Nat × List Warn) (i : Nat) :
    Heap × List Nat × List Warn :=
  let hjw := prepareRowH opts reg acc.1 i
  (hjw.1, acc.2.1 ++ [hjw.2.1], acc.2.2 ++ hjw.2.2)

/-- prepareAllH runs `prepareRowH` over a list of row indices, as the
`rows.map` of line 173 does over the caller's row array, collecting the
indices of the prepared copies and the warnings. -/
def prepareAllH (opts : PutOptions) (reg : Registry) (h : Heap)
    (idxs : List Nat) : Heap × List Nat × List Warn :=
  idxs.foldl (prepareStepH opts reg) (h, [], [])

/-- mapWF states the well-formedness every JavaScript `Map` enjoys by
construction: its keys are pairwise distinct. -/
def mapWF (m : IdMap) : Bool :=
  nodupB (m.map Prod.fst)

/-- regWF states the well-formedness of the registry object: collection
names are pairwise distinct and every sub-map is a well-formed `Map`. -/
def regWF (reg : Registry) : Bool :=
  nodupB (reg.map Prod.fst) && reg.all (fun p => mapWF p.2)

/-! Helper lemmas about the JavaScript object and map operations. -/

theorem find?_cons_eq {α : Type} (p : α → Bool) (a : α) (l : List α) :
    (a :: l).find? p = if p a then some a else l.find? p := by
  cases h : p a <;> simp [List.find?, h]

theorem find?_append_left {α : Type} (p : α → Bool) (l1 l2 : List α)
    (h : l1.find? p = none) : (l1 ++ l2).find? p = l2.find? p := by
  induction l1 with
  | nil => simp
  | cons a t ih =>
    rw [find?_cons_eq] at h
    cases hpa : p a with
    | true => rw [hpa] at h; simp at h
    | false =>
      rw [hpa, if_neg (by simp)] at h
      rw [List.cons_append, find?_cons_eq, hpa, if_neg (by simp)]
      exact ih h

theorem find?_none_of_any_false {α : Type} (p : α → Bool) (l : List α)
    (h : l.any p = false) : l.find? p = none := by
  rw [List.find?_eq_none]
  intro x hx hpx
  rw [List.any_eq_false] at h
  exact h x hx hpx

theorem mapGet_cons (a : String × Nat) (l : IdMap) (s : String) :
    mapGet (a :: l) s = if a.1 == s then some a.2 else mapGet l s := by
  unfold mapGet
  rw [find?_cons_eq]
  cases h : a.1 == s <;> simp [h]

theorem mapHas_cons (a : String × Nat) (l : IdMap) (s : String) :
    mapHas (a :: l) s = ((a.1 == s) || mapHas l s) := by
  simp [mapHas]

theorem JsObj.get_cons (a : String × Value) (l : JsObj) (k : String) :
    JsObj.get (a :: l) k = if a.1 == k then some a.2 else JsObj.get l k := by
  unfold JsObj.get
  rw [find?_cons_eq]
  cases h : a.1 == k <;> simp [h]

theorem JsObj.hasOwn_cons (a : String × Value) (l : JsObj) (k : String) :
    JsObj.hasOwn (a :: l) k = ((a.1 == k) || JsObj.hasOwn l k) := by
  simp [JsObj.hasOwn]

theorem JsObj.get_map_set (r : JsObj) (k : String) (v : Value)
    (h : r.hasOwn k = true) :
    JsObj.get (r.map (fun p => if p.1 == k then (k, v) else p)) k = some v := by
  induction r with
  | nil => simp [JsObj.hasOwn] at h
  | cons a t ih =>
    rw [JsObj.hasOwn_cons] at h
    cases hpa : a.1 == k with
    | true =>
      rw [List.map_cons, if_pos hpa, JsObj.get_cons]
      simp
    | false =>
      rw [hpa] at h
      rw [List.map_cons, if_neg (by simp [hpa]), JsObj.get_cons,
        if_neg (by simp [hpa])]
      exact ih (by simpa using h)

theorem JsObj.get_set_self (r : JsObj) (k : String) (v : Value) :
    (r.set k v).get k = some v := by
  unfold JsObj.set
  cases h : r.hasOwn k with
  | true => simpa [h] using JsObj.get_map_set r k v h
  | false =>
    have hf : r.find? (fun p => p.1 == k) = none := by
      apply find?_none_of_any_false
      simpa [JsObj.hasOwn] using h
    rw [if_neg (by simp [h])]
    unfold JsObj.get
    rw [find?_append_left _ _ _ hf, find?_cons_eq, if_pos (by simp)]
    rfl

theorem mapGet_isSome_mapHas (m : IdMap) (k : String)
    (h : (mapGet m k).isSome = true) : mapHas m k = true := by
  induction m with
  | nil => simp [mapGet] at h
  | cons a l ih =>
    rw [mapGet_cons] at h
    rw [mapHas_cons]
    cases ha : a.1 == k with
    | true => simp
    | false =>
      rw [ha, if_neg (by simp)] at h
      simpa using ih h

theorem mapSet_keep (m : IdMap) (s : String) (t : Nat)
    (h : ∀ q ∈ m, (q.1 == s) = false) :
    m.map (fun q => if q.1 == s then (s, t) else q) = m := by
  induction m with
  | nil => rfl
  | cons a l ih =>
    have ha := h a (by simp)
    rw [List.map_cons, if_neg (by simp [ha]),
      ih (fun q hq => h q (by simp [hq]))]

theorem mapSet_same (m : IdMap) (s : String) (t : Nat)
    (hwf : nodupB (m.map Prod.fst) = true) (hget : mapGet m s = some t) :
    mapSet m s t = m := by
  induction m with
  | nil => simp [mapGet] at hget
  | cons a l ih =>
    obtain ⟨a1, a2⟩ := a
    have hhas : mapHas ((a1, a2) :: l) s = true := by
      apply mapGet_isSome_mapHas
      rw [hget]; rfl
    unfold nodupB at hwf
    rw [List.map_cons, Bool.and_eq_true] at hwf
    cases ha : a1 == s with
    | true =>
      have ha' : a1 = s := by simpa using ha
      have ht : a2 = t := by
        rw [mapGet_cons, if_pos (by simpa using ha)] at hget
        simpa using hget
      have hnot : ∀ q ∈ l, (q.1 == s) = false := by
        intro q hq
        have hnc : ((l.map Prod.fst).contains a1) = false := by
          simpa using hwf.1
        cases hcc : q.1 == s with
        | true =>
          have hqs : q.1 = s := by simpa using hcc
          have hqm : q.1 ∈ l.map Prod.fst := List.mem_map_of_mem Prod.fst hq
          rw [hqs, ← ha'] at hqm
          rw [List.contains_eq_any_beq] at hnc
          rw [List.any_eq_false] at hnc
          exact absurd (by simp) (hnc a1 (by simpa using hqm))
        | false => rfl
      unfold mapSet
      rw [if_pos hhas, List.map_cons, if_pos (by simpa using ha),
        mapSet_keep l s t hnot, ha', ht]
    | false =>
      have hgl : mapGet l s = some t := by
        rw [mapGet_cons, if_neg (by simp [ha])] at hget
        exact hget
      have hhl : mapHas l s = true :=
        mapGet_isSome_mapHas l s (by rw [hgl]; rfl)
      have ihl := ih hwf.2 hgl
      unfold mapSet at ihl ⊢
      rw [if_pos hhl] at ihl
      rw [if_pos hhas, List.map_cons, if_neg (by simp [ha]), ihl]

theorem find?_append_some {α : Type} (p : α → Bool) (l1 l2 : List α)
    (x : α) (h : l1.find? p = some x) : (l1 ++ l2).find? p = some x := by
  induction l1 with
  | nil => simp [List.find?] at h
  | cons a t ih =>
    rw [find?_cons_eq] at h
    rw [List.cons_append, find?_cons_eq]
    cases hpa : p a with
    | true => rw [hpa] at h; simpa using h
    | false =>
      rw [hpa, if_neg (by simp)] at h
      rw [if_neg (by simp)]
      exact ih h

theorem regGetMap_cons (a : String × IdMap) (l : Registry) (c : String) :
    regGetMap (a :: l) c = if a.1 == c then some a.2 else regGetMap l c := by
  unfold regGetMap
  rw [find?_cons_eq]
  cases h : a.1 == c <;> simp [h]

theorem regHas_cons (a : String × IdMap) (l : Registry) (c : String) :
    regHas (a :: l) c = ((a.1 == c) || regHas l c) := by
  simp [regHas]

theorem regHas_of_regGetMap_isSome (reg : Registry) (c : String)
    (h : (regGetMap reg c).isSome = true) : regHas reg c = true := by
  induction reg with
  | nil => simp [regGetMap] at h
  | cons a l ih =>
    rw [regGetMap_cons] at h
    rw [regHas_cons]
    cases ha : a.1 == c with
    | true => simp
    | false =>
      rw [ha, if_neg (by simp)] at h
      simpa using ih h

theorem mapGet_map_set (m : IdMap) (s : String) (t : Nat)
    (h : mapHas m s = true) :
    mapGet (m.map (fun q => if q.1 == s then (s, t) else q)) s = some t := by
  induction m with
  | nil => simp [mapHas] at h
  | cons a l ih =>
    rw [mapHas_cons] at h
    cases hpa : a.1 == s with
    | true =>
      rw [List.map_cons, if_pos hpa, mapGet_cons]
      simp
    | false =>
      rw [hpa] at h
      rw [List.map_cons, if_neg (by simp [hpa]), mapGet_cons,
        if_neg (by simp [hpa])]
      exact ih (by simpa using h)

theorem mapGet_mapSet_self (m : IdMap) (s : String) (t : Nat) :
    mapGet (mapSet m s t) s = some t := by
  unfold mapSet
  cases h : mapHas m s with
  | true => simpa [h] using mapGet_map_set m s t h
  | false =>
    have hf : m.find? (fun p => p.1 == s) = none := by
      apply find?_none_of_any_false
      simpa [mapHas] using h
    rw [if_neg (by simp [h])]
    unfold mapGet
    rw [find?_append_left _ _ _ hf, find?_cons_eq, if_pos (by simp)]
    rfl

theorem mapGet_map_ne (m : IdMap) (s : String) (t : Nat) (v : String)
    (hne : (s == v) = false) :
    mapGet (m.map (fun q => if q.1 == s then (s, t) else q)) v = mapGet m v := by
  induction m with
  | nil => rfl
  | cons a l ih =>
    cases hpa : a.1 == s with
    | true =>
      have ha : a.1 = s := by simpa using hpa
      rw [List.map_cons, if_pos hpa, mapGet_cons, mapGet_cons,
        if_neg (by simp [show ¬ s = v by simpa using hne]),
        if_neg (by simp [ha, show ¬ s = v by simpa using hne])]
      exact ih
    | false =>
      rw [List.map_cons, if_neg (by simp [hpa]), mapGet_cons, mapGet_cons]
      cases hav : a.1 == v with
      | true => simp [hav]
      | false => simpa [hav] using ih

theorem mapGet_mapSet_ne (m : IdMap) (s : String) (t : Nat) (v : String)
    (hne : (s == v) = false) : mapGet (mapSet m s t) v = mapGet m v := by
  unfold mapSet
  cases h : mapHas m s with
  | true => simpa using mapGet_map_ne m s t v hne
  | false =>
    rw [if_neg (by simp)]
    unfold mapGet
    cases hf : m.find? (fun p => p.1 == v) with
    | some q => rw [find?_append_some _ _ _ _ hf]
    | none =>
      rw [find?_append_left _ _ _ hf, find?_cons_eq, if_neg (by simp [hne])]
      rfl

theorem regGetMap_map_set (reg : Registry) (c s : String) (t : Nat) :
    regGetMap (reg.map (fun p => if p.1 == c then (c, mapSet p.2 s t) else p)) c
      = (regGetMap reg c).map (fun m => mapSet m s t) := by
  induction reg with
  | nil => rfl
  | cons a l ih =>
    cases hpa : a.1 == c with
    | true =>
      rw [List.map_cons, if_pos hpa, regGetMap_cons, regGetMap_cons,
        if_pos hpa]
      simp
    | false =>
      rw [List.map_cons, if_neg (by simp [hpa]), regGetMap_cons,
        regGetMap_cons, if_neg (by simp [hpa]), if_neg (by simp [hpa])]
      exact ih

theorem regGetMap_isSome_of_regHas (reg : Registry) (c : String)
    (h : regHas reg c = true) : (regGetMap reg c).isSome = true := by
  induction reg with
  | nil => simp [regHas] at h
  | cons a l ih =>
    rw [regHas_cons] at h
    rw [regGetMap_cons]
    cases ha : a.1 == c with
    | true => simp
    | false =>
      rw [ha] at h
      rw [if_neg (by simp)]
      exact ih (by simpa using h)

theorem regGetPair_setPair_self (reg : Registry) (c s : String) (t : Nat) :
    regGetPair (regSetPair reg c s t) c s = some t := by
  unfold regSetPair
  cases h : regHas reg c with
  | true =>
    rw [if_pos (by simp [h])]
    unfold regGetPair
    rw [regGetMap_map_set]
    cases hg : regGetMap reg c with
    | none =>
      have hs := regGetMap_isSome_of_regHas reg c h
      rw [hg] at hs; simp at hs
    | some m => simpa using mapGet_mapSet_self m s t
  | false =>
    rw [if_neg (by simp [h])]
    unfold regGetPair
    have hf : reg.find? (fun p => p.1 == c) = none := by
      apply find?_none_of_any_false
      simpa [regHas] using h
    unfold regGetMap
    rw [find?_append_left _ _ _ hf, find?_cons_eq, if_pos (by simp)]
    simp [mapGet_cons]

theorem regGetPair_setPair_ne (reg : Registry) (c s : String) (t : Nat)
    (v : String) (hne : (s == v) = false) :
    regGetPair (regSetPair reg c s t) c v = regGetPair reg c v := by
  unfold regSetPair
  cases h : regHas reg c with
  | true =>
    rw [if_pos (by simp)]
    unfold regGetPair
    rw [regGetMap_map_set]
    cases hg : regGetMap reg c with
    | none => rfl
    | some m => simpa using mapGet_mapSet_ne m s t v hne
  | false =>
    rw [if_neg (by simp)]
    unfold regGetPair
    have hf : reg.find? (fun p => p.1 == c) = none := by
      apply find?_none_of_any_false
      simpa [regHas] using h
    unfold regGetMap
    rw [find?_append_left _ _ _ hf, hf, find?_cons_eq, if_pos (by simp)]
    simp [mapGet_cons, hne, mapGet]

theorem regSet_keep (l : Registry) (c s : String) (t : Nat)
    (h : ∀ q ∈ l, (q.1 == c) = false) :
    l.map (fun p => if p.1 == c then (c, mapSet p.2 s t) else p) = l := by
  induction l with
  | nil => rfl
  | cons a tl ih =>
    have ha := h a (by simp)
    rw [List.map_cons, if_neg (by simp [ha]),
      ih (fun q hq => h q (by simp [hq]))]

theorem regSetPair_same (reg : Registry) (c s : String) (t : Nat)
    (hwf : regWF reg = true) (hget : regGetPair reg c s = some t) :
    regSetPair reg c s t = reg := by
  induction reg with
  | nil => simp [regGetPair, regGetMap] at hget
  | cons a l ih =>
    obtain ⟨a1, m⟩ := a
    unfold regWF at hwf
    rw [List.map_cons, Bool.and_eq_true] at hwf
    have hwf1 := hwf.1
    have hwf2 := hwf.2
    unfold nodupB at hwf1
    rw [Bool.and_eq_true] at hwf1
    rw [List.all_cons, Bool.and_eq_true] at hwf2
    cases ha : a1 == c with
    | true =>
      have ha' : a1 = c := by simpa using ha
      have hgm : mapGet m s = some t := by
        unfold regGetPair at hget
        rw [regGetMap_cons, if_pos (by simpa using ha)] at hget
        simpa using hget
      have hnot : ∀ q ∈ l, (q.1 == c) = false := by
        intro q hq
        cases hcc : q.1 == c with
        | true =>
          have hqs : q.1 = c := by simpa using hcc
          have hqm : q.1 ∈ l.map Prod.fst := List.mem_map_of_mem Prod.fst hq
          have hnc : ((l.map Prod.fst).contains a1) = false := by
            simpa using hwf1.1
          rw [hqs, ← ha'] at hqm
          rw [List.contains_eq_any_beq, List.any_eq_false] at hnc
          exact absurd (by simp) (hnc a1 (by simpa using hqm))
        | false => rfl
      have hhas : regHas ((a1, m) :: l) c = true := by
        rw [regHas_cons]
        simp [ha]
      unfold regSetPair
      rw [if_pos hhas, List.map_cons, if_pos (by simpa using ha),
        regSet_keep l c s t hnot, ha',
        mapSet_same m s t (by simpa [mapWF] using hwf2.1) hgm]
    | false =>
      have hgl : regGetPair l c s = some t := by
        unfold regGetPair at hget ⊢
        rw [regGetMap_cons, if_neg (by simp [ha])] at hget
        exact hget
      have hhl : regHas l c = true := by
        apply regHas_of_regGetMap_isSome
        unfold regGetPair at hgl
        cases hg : regGetMap l c with
        | none => rw [hg] at hgl; simp at hgl
        | some _ => rfl
      have hwl : regWF l = true := by
        unfold regWF
        rw [Bool.and_eq_true]
        exact ⟨hwf1.2, hwf2.2⟩
      have ihl := ih hwl hgl
      unfold regSetPair at ihl ⊢
      rw [if_pos hhl] at ihl
      have hhas : regHas ((a1, m) :: l) c = true := by
        rw [regHas_cons]
        simp [hhl]
      rw [if_pos hhas, List.map_cons, if_neg (by simp [ha]), ihl]

/-- C2: for every element of every array field configured in links, the
element's target id is resolved by the registry scan `scanRegistry`
(lines 283-289, invoked per element by `linkElemStep`), which computes
exactly the spec's `resolveAny` fallback: the first collection sub-map
containing the id wins.  The links configuration (`LinkSpec`, the 4-tuple
of lines 119-121) has no slot declaring an owning collection, so the
spec's preferred explicit-owner branch can never be taken and the
`resolveAny` fallback is used for every element. -/
theorem c2_element_resolution_is_resolveAny (reg : Registry) (key : String) :
    scanRegistry reg key = (specResolveAny reg key).map Prod.snd := by
  unfold scanRegistry specResolveAny
  cases h : reg.find? (fun p => mapHas p.2 key) with
  | none => rfl
  | some p =>
    cases hg : mapGet p.2 key <;> simp [hg]

/-- C3 counterexample: registering an already-registered pair with a
different target id does not fail with any ConflictError — `regSetPair`,
the translation of `idsRegistry[coll].set(...)` at lines 251 and 258, is
total and silently overwrites, so the pair's target id changes from 1
to 2. -/
theorem c3_register_counterexample :
    regGetPair [("c", [("s", 1)])] "c" "s" = some 1 ∧
    regGetPair (regSetPair [("c", [("s", 1)])] "c" "s" 2) "c" "s" = some 2 := by
  decide

/-- C3 amended: registering a pair that already exists with the same
target id is a no-op (for any well-formed registry), but registering with
a different target id silently overwrites, last write wins; no
ConflictError exists in the code. -/
theorem c3_amended_register_last_write_wins (reg : Registry) (c s : String)
    (t : Nat) :
    regGetPair (regSetPair reg c s t) c s = some t ∧
    (regWF reg = true → regGetPair reg c s = some t →
      regSetPair reg c s t = reg) :=
  ⟨regGetPair_setPair_self reg c s t,
   fun hwf hget => regSetPair_same reg c s t hwf hget⟩

/-- C3 amended witness: at a concrete registry, re-registering the same
target id leaves the registry unchanged, and registering a new target id
makes the lookup return it. -/
theorem c3_amended_witness :
    regGetPair (regSetPair [("c", [("s", 5)])] "c" "s" 7) "c" "s" = some 7 ∧
    regSetPair [("c", [("s", 5)])] "c" "s" 5 = [("c", [("s", 5)])] :=
  ⟨(c3_amended_register_last_write_wins [("c", [("s", 5)])] "c" "s" 7).1,
   (c3_amended_register_last_write_wins [("c", [("s", 5)])] "c" "s" 5).2
     (by decide) (by decide)⟩

theorem JsObj.get_filter_pred (r : JsObj) (p : String × Value → Bool)
    (k : String) (v : Value) (h : JsObj.get (r.filter p) k = some v) :
    p (k, v) = true := by
  unfold JsObj.get at h
  cases hf : (r.filter p).find? (fun q => q.1 == k) with
  | none => rw [hf] at h; simp at h
  | some q =>
    rw [hf] at h
    have hq1 := List.find?_some hf
    have hmem : q ∈ r.filter p := List.mem_of_find?_eq_some hf
    have hp : p q = true := List.of_mem_filter hmem
    obtain ⟨q1, q2⟩ := q
    have hq2 : q2 = v := by simpa using h
    have hq1' : q1 = k := by simpa using hq1
    rw [hq1', hq2] at hp
    exact hp

/-- C6: in every row produced by the transform pipeline, any field that
still holds an array value after rename, redefine and foreign-key
substitution is listed in the links configuration — the elision stage
(lines 230-235) removes every other array field, so the written row
carries no array-valued field outside links. -/
theorem c6_array_elision (opts : PutOptions) (reg : Registry) (row : JsObj)
    (k : String) (xs : List Value)
    (h : (transformRow opts reg row).1.get k = some (Value.vArr xs)) :
    linksHas opts.links k = true := by
  unfold transformRow elideStage at h
  have hp := JsObj.get_filter_pred _ _ _ _ h
  simp only [Value.isArr, Bool.true_and, Bool.not_eq_true'] at hp
  simpa using hp

/-- C6 witness: a record with a linked array field and an unlinked one;
the linked field survives transformation and is indeed configured in
links. -/
theorem c6_witness :
    linksHas [("a", LinkSpec.mk "t" "x" "y" none)] "a" = true :=
  c6_array_elision
    { links := [("a", LinkSpec.mk "t" "x" "y" none)] } [] 
    [("a", Value.vArr [Value.vNull]), ("b", Value.vArr [])]
    "a" [Value.vNull] (by decide)

/-- C8: for a redefine entry whose field is present, a succeeding mapper
replaces the field's value with its result and adds no warning, while a
throwing mapper leaves the record unchanged and records one warning
(lines 185-193); in both cases the fold over the remaining redefine
entries continues, so the record is not aborted. -/
theorem c8_redefine_behavior (r : JsObj) (w : List Warn) (field : String)
    (fn : Value → JsObj → Except String Value)
    (hOwn : r.hasOwn field = true) :
    (∀ v, fn ((r.get field).getD Value.vUndef) r = .ok v →
      (redefineStep (r, w) (field, fn)).1.get field = some v ∧
      (redefineStep (r, w) (field, fn)).2 = w) ∧
    (∀ e, fn ((r.get field).getD Value.vUndef) r = .error e →
      (redefineStep (r, w) (field, fn)).1 = r ∧
      (redefineStep (r, w) (field, fn)).2 = w ++ [Warn.redefineFail field e]) ∧
    (∀ rest, ((field, fn) :: rest).foldl redefineStep (r, w) =
      rest.foldl redefineStep (redefineStep (r, w) (field, fn))) := by
  refine ⟨?_, ?_, ?_⟩
  · intro v hv
    have hset := JsObj.get_set_self r field v
    simp [redefineStep, hOwn, hv, hset]
  · intro e he
    simp [redefineStep, hOwn, he]
  · intro rest
    rfl

/-- C8 witness: a succeeding mapper rewrites the field, a throwing mapper
leaves the record untouched, at a concrete record. -/
theorem c8_witness :
    (redefineStep ([("x", Value.vNum 1)], [])
      ("x", fun _ _ => Except.ok (Value.vNum 2))).1.get "x" =
        some (Value.vNum 2) ∧
    (redefineStep ([("x", Value.vNum 1)], [])
      ("x", fun _ _ => Except.error "boom")).1 = [("x", Value.vNum 1)] :=
  ⟨((c8_redefine_behavior [("x", Value.vNum 1)] [] "x"
      (fun _ _ => Except.ok (Value.vNum 2)) (by decide)).1
      (Value.vNum 2) rfl).1,
   ((c8_redefine_behavior [("x", Value.vNum 1)] [] "x"
      (fun _ _ => Except.error "boom") (by decide)).2.1 "boom" rfl).1⟩

theorem prepareAll_go_length (opts : PutOptions) (reg : Registry)
    (rows : List JsObj) (acc : List JsObj × List Warn) :
    (rows.foldl
      (fun acc row =>
        let rw := transformRow opts reg row
        (acc.1 ++ [rw.1], acc.2 ++ rw.2)) acc).1.length =
    acc.1.length + rows.length := by
  induction rows generalizing acc with
  | nil => simp
  | cons r t ih =>
    rw [List.foldl_cons, ih]
    simp
    omega

theorem prepareAll_length (opts : PutOptions) (reg : Registry)
    (rows : List JsObj) :
    (prepareAll opts reg rows).1.length = rows.length := by
  unfold prepareAll
  rw [prepareAll_go_length]
  simp

theorem putToPostgres_spec (rows : List JsObj) (opts : PutOptions)
    (reg : Registry) (coll : String) (db : Db)
    (linkDb : List (String × JsObj)) (hne : rows.isEmpty = false) :
    putToPostgres rows opts reg coll db linkDb =
      (let reg0 := ensureColl reg coll
       let pw := prepareAll opts reg0 rows
       let em := buildEm (selectExisting db (collectMongoIds pw.1))
       let toIns := toInsertOf em pw.1
       let toSk := toSkipOf em pw.1
       let reg1 := skipRegistryUpdate em coll reg0 toSk
       if uniqueInsertOk db (toIns.map mongoText) then
         let dbIns := insertRows db toIns
         let reg2 := insertRegistryUpdate coll reg1 dbIns.2
         let lw := linkPhase reg2 coll opts.links rows
         (⟨dbIns.1, linkDb ++ lw.1, reg2, pw.2 ++ lw.2⟩, Except.ok ())
       else (⟨db, linkDb, reg1, pw.2⟩, Except.error "insert failed")) := by
  unfold putToPostgres
  rw [if_neg (by simp [hne])]

/-- C5: an unresolvable foreign-key field is made soft.  First, for any
present, non-null, non-array field whose value has no entry in the foreign
collection's ids map (or whose foreign collection has no map at all), the
mapping stage of lines 196-227 sets the field to null and records exactly
one warning.  Second, the transform is a total map, so the row stays in
the prepared batch.  Third, a call on non-empty input aborts exactly when
the batched insert's uniqueness check fails — never because of a
foreign-key resolution failure. -/
theorem c5_unresolvable_fk_soft :
    (∀ (reg : Registry) (r : JsObj) (w : List Warn) (field fc : String)
       (v : Value),
       r.hasOwn field = true → r.get field = some v →
       v.isNullish = false → v.isArr = false →
       (regGetMap reg fc).bind (fun m => mapGet m v.toStr) = none →
       (fkStep reg (r, w) (field, fc)).1.get field = some Value.vNull ∧
       (fkStep reg (r, w) (field, fc)).2.length = w.length + 1) ∧
    (∀ (opts : PutOptions) (reg : Registry) (rows : List JsObj),
       (prepareAll opts reg rows).1.length = rows.length) ∧
    (∀ (rows : List JsObj) (opts : PutOptions) (reg : Registry)
       (coll : String) (db : Db) (linkDb : List (String × JsObj)),
       rows ≠ [] →
       ((putToPostgres rows opts reg coll db linkDb).2 = Except.ok () ↔
         uniqueInsertOk db
           ((toInsertOf
               (buildEm (selectExisting db (collectMongoIds
                 (prepareAll opts (ensureColl reg coll) rows).1)))
               (prepareAll opts (ensureColl reg coll) rows).1).map
             mongoText) = true)) := by
  refine ⟨?_, ?_, ?_⟩
  · intro reg r w field fc v hOwn hv hnn hna hmiss
    cases hm : regGetMap reg fc with
    | none =>
      have h1 := JsObj.get_set_self r field Value.vNull
      simp [fkStep, hOwn, hv, hnn, hm, h1]
    | some m =>
      have hmg : mapGet m v.toStr = none := by
        rw [hm] at hmiss
        simpa using hmiss
      have h1 := JsObj.get_set_self r field Value.vNull
      cases v with
      | vNull => simp [Value.isNullish] at hnn
      | vUndef => simp [Value.isNullish] at hnn
      | vArr xs => simp [Value.isArr] at hna
      | vBool b => simp [fkStep, hOwn, hv, hm, hmg, h1, Value.isNullish]
      | vNum n => simp [fkStep, hOwn, hv, hm, hmg, h1, Value.isNullish]
      | vStr s => simp [fkStep, hOwn, hv, hm, hmg, h1, Value.isNullish, hnn]
  · intro opts reg rows
    exact prepareAll_length opts reg rows
  · intro rows opts reg coll db linkDb hne
    have hne' : rows.isEmpty = false := by
      cases rows with
      | nil => exact absurd rfl hne
      | cons a t => rfl
    rw [putToPostgres_spec rows opts reg coll db linkDb hne']
    cases huq : uniqueInsertOk db
        ((toInsertOf
            (buildEm (selectExisting db (collectMongoIds
              (prepareAll opts (ensureColl reg coll) rows).1)))
            (prepareAll opts (ensureColl reg coll) rows).1).map
          mongoText) with
    | true => simp [huq]
    | false => simp [huq]

/-- C5 witness: a concrete record whose foreign-key field resolves nowhere
gets the field set to null with one warning, and a concrete call
containing such a record still commits. -/
theorem c5_witness :
    (fkStep [] ([("d", Value.vStr "x")], []) ("d", "deps")).1.get "d" =
        some Value.vNull ∧
    (putToPostgres [[("mongo_id", Value.vStr "m"), ("d", Value.vStr "x")]]
      { foreignKeys := [("d", "deps")] } [] "c" ⟨1, []⟩ []).2 =
        Except.ok () :=
  ⟨(c5_unresolvable_fk_soft.1 [] [("d", Value.vStr "x")] [] "d" "deps"
      (Value.vStr "x") (by decide) (by decide) (by decide) (by decide)
      (by decide)).1,
   (c5_unresolvable_fk_soft.2.2 [[("mongo_id", Value.vStr "m"),
      ("d", Value.vStr "x")]] { foreignKeys := [("d", "deps")] } [] "c"
      ⟨1, []⟩ [] (by decide)).mpr (by decide)⟩

/-- C1 counterexample: a failing unit does not leave the registry as it
was.  With an initially empty registry, one row already present in the
table and two new rows sharing the same mongo_id (so the batched insert
violates the unique constraint and the transaction rolls back), the call
fails and the database is rolled back — yet the registry now holds the
pair x to 1 recorded for the skipped row before the insert failed. -/
theorem c1_rollback_counterexample :
    (putToPostgres
      [[("mongo_id", Value.vStr "x")], [("mongo_id", Value.vStr "y")],
       [("mongo_id", Value.vStr "y")]]
      {} [] "c" ⟨2, [⟨1, "x", [("mongo_id", Value.vStr "x")]⟩]⟩ []).2 =
        Except.error "insert failed" ∧
    (putToPostgres
      [[("mongo_id", Value.vStr "x")], [("mongo_id", Value.vStr "y")],
       [("mongo_id", Value.vStr "y")]]
      {} [] "c" ⟨2, [⟨1, "x", [("mongo_id", Value.vStr "x")]⟩]⟩ []).1.db =
        ⟨2, [⟨1, "x", [("mongo_id", Value.vStr "x")]⟩]⟩ ∧
    (putToPostgres
      [[("mongo_id", Value.vStr "x")], [("mongo_id", Value.vStr "y")],
       [("mongo_id", Value.vStr "y")]]
      {} [] "c" ⟨2, [⟨1, "x", [("mongo_id", Value.vStr "x")]⟩]⟩
      []).1.registry = [("c", [("x", 1)])] ∧
    [("c", [("x", 1)])] ≠ ([] : Registry) := by
  refine ⟨by decide, by decide, by decide, by decide⟩

/-- C1 amended: when the batched insert fails, the enclosing transaction
rolls back the database effects — the table and the link tables are left
exactly as before the call — but the in-memory registry is not restored:
it keeps the collection's (possibly fresh empty) sub-map and every
(mongo_id, sql_id) pair recorded for the skipped rows before the failure;
only the pairs for the to-be-inserted rows are absent. -/
theorem c1_amended_registry_retained_on_failure (rows : List JsObj)
    (opts : PutOptions) (reg : Registry) (coll : String) (db : Db)
    (linkDb : List (String × JsObj)) (hne : rows ≠ [])
    (hfail : uniqueInsertOk db
      ((toInsertOf
          (buildEm (selectExisting db (collectMongoIds
            (prepareAll opts (ensureColl reg coll) rows).1)))
          (prepareAll opts (ensureColl reg coll) rows).1).map
        mongoText) = false) :
    putToPostgres rows opts reg coll db linkDb =
      (⟨db, linkDb,
        skipRegistryUpdate
          (buildEm (selectExisting db (collectMongoIds
            (prepareAll opts (ensureColl reg coll) rows).1)))
          coll (ensureColl reg coll)
          (toSkipOf
            (buildEm (selectExisting db (collectMongoIds
              (prepareAll opts (ensureColl reg coll) rows).1)))
            (prepareAll opts (ensureColl reg coll) rows).1),
        (prepareAll opts (ensureColl reg coll) rows).2⟩,
       Except.error "insert failed") := by
  have hne' : rows.isEmpty = false := by
    cases rows with
    | nil => exact absurd rfl hne
    | cons a t => rfl
  rw [putToPostgres_spec rows opts reg coll db linkDb hne']
  simp [hfail]

/-- C1 amended witness: at the concrete failing input, the database is
rolled back while the skipped row's registry pair is retained. -/
theorem c1_amended_witness :
    putToPostgres
      [[("mongo_id", Value.vStr "x")], [("mongo_id", Value.vStr "y")],
       [("mongo_id", Value.vStr "y")]]
      {} [] "c" ⟨2, [⟨1, "x", [("mongo_id", Value.vStr "x")]⟩]⟩ [] =
      (⟨⟨2, [⟨1, "x", [("mongo_id", Value.vStr "x")]⟩]⟩, [],
        [("c", [("x", 1)])], []⟩, Except.error "insert failed") := by
  rw [c1_amended_registry_retained_on_failure
    [[("mongo_id", Value.vStr "x")], [("mongo_id", Value.vStr "y")],
     [("mongo_id", Value.vStr "y")]]
    {} [] "c" ⟨2, [⟨1, "x", [("mongo_id", Value.vStr "x")]⟩]⟩ []
    (by decide) (by decide)]
  decide

theorem linkElem_fold_length (reg : Registry) (spec : LinkSpec)
    (selfSqlId : Nat) (raw : JsObj) (xs : List Value)
    (acc : List JsObj × List Warn)
    (h : ∀ e ∈ xs, (scanRegistry reg e.toStr).getD 0 ≠ 0) :
    (xs.foldl (linkElemStep reg spec selfSqlId raw) acc).1.length =
      acc.1.length + xs.length := by
  induction xs generalizing acc with
  | nil => simp
  | cons e t ih =>
    have he := h e (by simp)
    rw [List.foldl_cons, ih _ (fun x hx => h x (by simp [hx]))]
    have hstep : (linkElemStep reg spec selfSqlId raw acc e).1.length =
        acc.1.length + 1 := by
      unfold linkElemStep
      rw [if_neg (by simp [he])]
      simp
    rw [hstep]
    simp
    omega

theorem linkRow_fold_length (reg : Registry) (coll af : String)
    (spec : LinkSpec) (rows : List JsObj) (acc : List JsObj × List Warn)
    (hself : ∀ raw ∈ rows, arrayElems af raw ≠ [] →
      (regGetPair reg coll (mongoText raw)).getD 0 ≠ 0)
    (helem : ∀ raw ∈ rows, ∀ e ∈ arrayElems af raw,
      (scanRegistry reg e.toStr).getD 0 ≠ 0) :
    (rows.foldl (linkRowStep reg coll af spec) acc).1.length =
      acc.1.length + (rows.map (elemCount af)).sum := by
  induction rows generalizing acc with
  | nil => simp
  | cons raw t ih =>
    rw [List.foldl_cons,
      ih _ (fun x hx => hself x (by simp [hx])) (fun x hx => helem x (by simp [hx]))]
    have hstep : (linkRowStep reg coll af spec acc raw).1.length =
        acc.1.length + elemCount af raw := by
      unfold linkRowStep elemCount
      cases hg : raw.get af with
      | none => simp
      | some v =>
        cases v with
        | vArr xs =>
          have hae : arrayElems af raw = xs := by simp [arrayElems, hg]
          cases hxe : xs.isEmpty with
          | true =>
            have : xs = [] := by simpa using hxe
            simp [this]
          | false =>
            have hxne : arrayElems af raw ≠ [] := by
              rw [hae]
              intro hc
              rw [hc] at hxe
              simp at hxe
            have hs := hself raw (by simp) hxne
            have hfold := linkElem_fold_length reg spec
              ((regGetPair reg coll (mongoText raw)).getD 0) raw xs acc
              (fun e he => helem raw (by simp) e (by rw [hae]; exact he))
            simp [hxe, hs, hfold]
        | vNull => simp
        | vUndef => simp
        | vBool b => simp
        | vNum n => simp
        | vStr s => simp
    rw [hstep]
    simp
    omega

/-- C7 counterexample: a record whose configured array element is
resolvable in the registry, but whose own mongo_id was never registered
(here the record has no mongo_id at all, so the upsert skipped it):
every element resolves, the total element count is 1, yet zero link rows
are written — the link materializer skips the whole record. -/
theorem c7_link_count_counterexample :
    (∀ e ∈ arrayElems "a_ids" [("a_ids", Value.vArr [Value.vStr "a1"])],
      (scanRegistry
        ((putToPostgres [[("a_ids", Value.vArr [Value.vStr "a1"])]]
          { links := [("a_ids", LinkSpec.mk "t" "e" "a" none)] }
          [("awards", [("a1", 1)])] "c" ⟨1, []⟩ []).1.registry)
        e.toStr).getD 0 ≠ 0) ∧
    (putToPostgres [[("a_ids", Value.vArr [Value.vStr "a1"])]]
      { links := [("a_ids", LinkSpec.mk "t" "e" "a" none)] }
      [("awards", [("a1", 1)])] "c" ⟨1, []⟩ []).1.linkDb.length = 0 ∧
    ([[("a_ids", Value.vArr [Value.vStr "a1"])]].map
      (elemCount "a_ids")).sum = 1 := by
  refine ⟨by decide, by decide, by decide⟩

/-- C7 amended: when every element of the configured array field resolves
to a truthy SQL id AND every record carrying a non-empty array has its own
mongo_id registered with a truthy SQL id, the number of link rows gathered
for that field equals the total element count over all records.  The
second hypothesis is forced by the counterexample: the code skips a whole
record when its own id is not resolvable. -/
theorem c7_amended_link_count (reg : Registry) (coll af : String)
    (spec : LinkSpec) (rows : List JsObj)
    (hself : ∀ raw ∈ rows, arrayElems af raw ≠ [] →
      (regGetPair reg coll (mongoText raw)).getD 0 ≠ 0)
    (helem : ∀ raw ∈ rows, ∀ e ∈ arrayElems af raw,
      (scanRegistry reg e.toStr).getD 0 ≠ 0) :
    (gatherLinkRows reg coll af spec rows).1.length =
      (rows.map (elemCount af)).sum := by
  unfold gatherLinkRows
  rw [linkRow_fold_length reg coll af spec rows ([], []) hself helem]
  simp

/-- C7 amended witness: one record with two resolvable award ids and a
registered own id yields exactly two link rows. -/
theorem c7_amended_witness :
    (gatherLinkRows
      [("c", [("m", 3)]), ("awards", [("a1", 1), ("a2", 2)])] "c" "a_ids"
      (LinkSpec.mk "t" "e" "a" none)
      [[("mongo_id", Value.vStr "m"),
        ("a_ids", Value.vArr [Value.vStr "a1", Value.vStr "a2"])]]).1.length =
    ([[("mongo_id", Value.vStr "m"),
       ("a_ids", Value.vArr [Value.vStr "a1", Value.vStr "a2"])]].map
      (elemCount "a_ids")).sum :=
  c7_amended_link_count
    [("c", [("m", 3)]), ("awards", [("a1", 1), ("a2", 2)])] "c" "a_ids"
    (LinkSpec.mk "t" "e" "a" none)
    [[("mongo_id", Value.vStr "m"),
      ("a_ids", Value.vArr [Value.vStr "a1", Value.vStr "a2"])]]
    (by decide) (by decide)

theorem valueIsStrKey_some (o : Option Value) (s : String)
    (h : valueIsStrKey o = some s) : o = some (Value.vStr s) := by
  cases o with
  | none => simp [valueIsStrKey] at h
  | some v =>
    cases v <;> simp [valueIsStrKey] at h
    rw [h]

theorem mongoText_of_strKey (r : JsObj) (s : String)
    (h : valueIsStrKey (r.get "mongo_id") = some s) : mongoText r = s := by
  have hg := valueIsStrKey_some _ _ h
  unfold mongoText
  rw [hg]
  rfl

theorem mem_insertRowsAux (l : List JsObj) (n : Nat) (y : DbRow)
    (h : y ∈ insertRowsAux n l) :
    ∃ r ∈ l, y.mongoText = mongoText r ∧ y.data = r := by
  induction l generalizing n with
  | nil => simp [insertRowsAux] at h
  | cons r t ih =>
    unfold insertRowsAux at h
    rcases List.mem_cons.mp h with hy | hy
    · exact ⟨r, by simp, by rw [hy], by rw [hy]⟩
    · obtain ⟨r', hr', h1, h2⟩ := ih (n + 1) hy
      exact ⟨r', by simp [hr'], h1, h2⟩

theorem skipRegistryUpdate_changed (em : IdMap) (coll : String)
    (toSk : List JsObj) (rg : Registry) (s : String)
    (h : regGetPair (skipRegistryUpdate em coll rg toSk) coll s ≠
      regGetPair rg coll s) :
    ∃ r ∈ toSk, valueIsStrKey (r.get "mongo_id") = some s := by
  induction toSk generalizing rg with
  | nil => exact absurd rfl h
  | cons r t ih =>
    unfold skipRegistryUpdate at h ih
    rw [List.foldl_cons] at h
    by_cases h1 :
        regGetPair
          (t.foldl (fun rg r =>
            match valueIsStrKey (r.get "mongo_id"), emGet em (r.get "mongo_id") with
            | some s, some i => regSetPair rg coll s i
            | _, _ => rg)
            (match valueIsStrKey (r.get "mongo_id"), emGet em (r.get "mongo_id") with
             | some s, some i => regSetPair rg coll s i
             | _, _ => rg)) coll s =
        regGetPair
          (match valueIsStrKey (r.get "mongo_id"), emGet em (r.get "mongo_id") with
           | some s, some i => regSetPair rg coll s i
           | _, _ => rg) coll s
    · rw [h1] at h
      cases hk : valueIsStrKey (r.get "mongo_id") with
      | none => rw [hk] at h; simp at h
      | some s' =>
        cases hg : emGet em (r.get "mongo_id") with
        | none => rw [hk, hg] at h; simp at h
        | some i =>
          rw [hk, hg] at h
          simp only at h
          by_cases hss : s' = s
          · exact ⟨r, by simp, by rw [hk, hss]⟩
          · exact absurd (regGetPair_setPair_ne rg coll s' i s
              (by simp [hss])) h
    · obtain ⟨r', hr', hk⟩ := ih _ h1
      exact ⟨r', by simp [hr'], hk⟩

theorem insertRegistryUpdate_changed (coll : String)
    (ins : List (Nat × String)) (rg : Registry) (s : String)
    (h : regGetPair (insertRegistryUpdate coll rg ins) coll s ≠
      regGetPair rg coll s) :
    ∃ x ∈ ins, x.2 = s := by
  induction ins generalizing rg with
  | nil => exact absurd rfl h
  | cons x t ih =>
    unfold insertRegistryUpdate at h ih
    rw [List.foldl_cons] at h
    by_cases h1 :
        regGetPair (t.foldl (fun rg x => regSetPair rg coll x.2 x.1)
          (regSetPair rg coll x.2 x.1)) coll s =
        regGetPair (regSetPair rg coll x.2 x.1) coll s
    · rw [h1] at h
      by_cases hss : x.2 = s
      · exact ⟨x, by simp, hss⟩
      · exact absurd (regGetPair_setPair_ne rg coll x.2 x.1 s
          (by simp [hss])) h
    · obtain ⟨x', hx', hk⟩ := ih _ h1
      exact ⟨x', by simp [hx'], hk⟩

/-- C10: the idempotency partition of lines 241-263 places every prepared
row with a falsy mongo_id in neither the insert set nor the skip set; a
row with a truthy mongo_id lands in exactly one of the two.  Every row the
insert adds to the table comes from the insert set, and every key whose
registry binding changes is the mongo_id text of some truthy-id prepared
row — so falsy rows are never written and get no registry entry. -/
theorem c10_falsy_mongo_id_partition (em : IdMap) (prepared : List JsObj)
    (db : Db) (reg : Registry) (coll : String) :
    (∀ r ∈ prepared, truthyO (r.get "mongo_id") = false →
      r ∉ toInsertOf em prepared ∧ r ∉ toSkipOf em prepared) ∧
    (∀ r ∈ prepared, truthyO (r.get "mongo_id") = true →
      (r ∈ toInsertOf em prepared ↔ r ∉ toSkipOf em prepared)) ∧
    (∀ row ∈ (insertRows db (toInsertOf em prepared)).1.rows,
      row ∈ db.rows ∨ row.data ∈ toInsertOf em prepared) ∧
    (∀ s, regGetPair
        (insertRegistryUpdate coll
          (skipRegistryUpdate em coll reg (toSkipOf em prepared))
          (insertRows db (toInsertOf em prepared)).2) coll s ≠
        regGetPair reg coll s →
      ∃ r ∈ prepared, truthyO (r.get "mongo_id") = true ∧ mongoText r = s) := by
  refine ⟨?_, ?_, ?_, ?_⟩
  · intro r hr hf
    constructor
    · intro hc
      have := (List.mem_filter.mp hc).2
      rw [hf] at this
      simp at this
    · intro hc
      have := (List.mem_filter.mp hc).2
      rw [hf] at this
      simp at this
  · intro r hr ht
    cases hh : emHas em (r.get "mongo_id") with
    | true =>
      constructor
      · intro hc
        have := (List.mem_filter.mp hc).2
        rw [ht, hh] at this
        simp at this
      · intro hc
        exact absurd (List.mem_filter.mpr ⟨hr, by rw [ht, hh]; rfl⟩) hc
    | false =>
      constructor
      · intro _ hc
        have := (List.mem_filter.mp hc).2
        rw [ht, hh] at this
        simp at this
      · intro _
        exact List.mem_filter.mpr ⟨hr, by rw [ht, hh]; rfl⟩
  · intro row hrow
    unfold insertRows at hrow
    simp only at hrow
    rcases List.mem_append.mp hrow with hl | hr
    · exact Or.inl hl
    · obtain ⟨r, hr', _, hdata⟩ :=
        mem_insertRowsAux (toInsertOf em prepared) db.nextId row hr
      exact Or.inr (by rw [hdata]; exact hr')
  · intro s hne
    by_cases h1 :
        regGetPair
          (insertRegistryUpdate coll
            (skipRegistryUpdate em coll reg (toSkipOf em prepared))
            (insertRows db (toInsertOf em prepared)).2) coll s =
        regGetPair (skipRegistryUpdate em coll reg (toSkipOf em prepared))
          coll s
    · rw [h1] at hne
      obtain ⟨r, hr, hk⟩ := skipRegistryUpdate_changed em coll
        (toSkipOf em prepared) reg s hne
      have hmem := List.mem_filter.mp hr
      have hpred := hmem.2
      rw [Bool.and_eq_true] at hpred
      exact ⟨r, hmem.1, hpred.1, mongoText_of_strKey r s hk⟩
    · obtain ⟨x, hx, hxs⟩ := insertRegistryUpdate_changed coll
        (insertRows db (toInsertOf em prepared)).2
        (skipRegistryUpdate em coll reg (toSkipOf em prepared)) s h1
      unfold insertRows at hx
      simp only [List.mem_map] at hx
      obtain ⟨y, hy, hxy⟩ := hx
      obtain ⟨r, hr', hmt, _⟩ :=
        mem_insertRowsAux (toInsertOf em prepared) db.nextId y hy
      have hmem := List.mem_filter.mp hr'
      have hpred := hmem.2
      rw [Bool.and_eq_true] at hpred
      refine ⟨r, hmem.1, hpred.1, ?_⟩
      rw [← hmt, ← hxs, ← hxy]

/-- C10 witness: at a concrete batch, the row without a mongo_id belongs
to neither set, while the truthy row is in exactly one set. -/
theorem c10_witness :
    [("name", Value.vStr "bob")] ∉
      toInsertOf [("x", 1)]
        [[("mongo_id", Value.vStr "x")], [("name", Value.vStr "bob")]] ∧
    [("name", Value.vStr "bob")] ∉
      toSkipOf [("x", 1)]
        [[("mongo_id", Value.vStr "x")], [("name", Value.vStr "bob")]] :=
  (c10_falsy_mongo_id_partition [("x", 1)]
    [[("mongo_id", Value.vStr "x")], [("name", Value.vStr "bob")]]
    ⟨1, []⟩ [] "c").1
    [("name", Value.vStr "bob")] (by decide) (by decide)

theorem Heap.read_write_ne (h : Heap) (j k : Nat) (r : JsObj)
    (hne : j ≠ k) : (h.write j r).read k = h.read k := by
  unfold Heap.write Heap.read
  simp only [List.getD, List.get?_eq_getElem?]
  rw [List.getElem?_set_ne hne]

theorem Heap.read_write_self (h : Heap) (j : Nat) (r : JsObj)
    (hj : j < h.cells.length) : (h.write j r).read j = r := by
  unfold Heap.write Heap.read
  simp only [List.getD, List.get?_eq_getElem?]
  rw [List.getElem?_set_self]
  simp [hj]
  exact hj

theorem prepareRowH_cells_length (opts : PutOptions) (reg : Registry)
    (h : Heap) (i : Nat) :
    (prepareRowH opts reg h i).1.cells.length = h.cells.length + 1 := by
  unfold prepareRowH Heap.write
  simp

theorem prepareRowH_read_lt (opts : PutOptions) (reg : Registry) (h : Heap)
    (i k : Nat) (hk : k < h.cells.length) :
    (prepareRowH opts reg h i).1.read k = h.read k := by
  have hne : h.cells.length ≠ k := by omega
  unfold prepareRowH
  simp only [Heap.write, Heap.read, List.getD, List.get?_eq_getElem?]
  rw [List.getElem?_set_ne hne, List.getElem?_set_ne hne,
    List.getElem?_set_ne hne, List.getElem?_set_ne hne,
    List.getElem?_append]
  simp [hk]

theorem prepareAllH_go (opts : PutOptions) (reg : Registry)
    (idxs : List Nat) :
    ∀ (acc : Heap × List Nat × List Warn) (k : Nat),
      k < acc.1.cells.length →
      (idxs.foldl (prepareStepH opts reg) acc).1.read k = acc.1.read k := by
  induction idxs with
  | nil => intro acc k hk; rfl
  | cons i t ih =>
    intro acc k hk
    rw [List.foldl_cons]
    have hk2 : k < (prepareStepH opts reg acc i).1.cells.length := by
      show k < (prepareRowH opts reg acc.1 i).1.cells.length
      rw [prepareRowH_cells_length]
      omega
    rw [ih (prepareStepH opts reg acc i) k hk2]
    exact prepareRowH_read_lt opts reg acc.1 i k hk

/-- C9: the transform pipeline never mutates the caller's records.  In the
explicit row-store model of lines 173-238, running the pipeline over any
set of row indices leaves every original cell unchanged (the fresh copy of
line 174 is the only cell written), and the prepared copy equals the pure
transform of the original row — so the link materializer, which reads the
original `rows` array (line 269), sees the untouched originals, array
fields included. -/
theorem c9_originals_not_mutated (opts : PutOptions) (reg : Registry)
    (h : Heap) (idxs : List Nat) (k : Nat) (hk : k < h.cells.length) :
    (prepareAllH opts reg h idxs).1.read k = h.read k ∧
    (∀ i, (prepareRowH opts reg h i).1.read (prepareRowH opts reg h i).2.1 =
      (transformRow opts reg (h.read i)).1) := by
  constructor
  · exact prepareAllH_go opts reg idxs (h, [], []) k hk
  · intro i
    unfold prepareRowH
    simp only []
    rw [show (Heap.mk (h.cells ++ [h.read i])).read h.cells.length =
          h.read i from by
        simp [Heap.read, List.getD, List.getElem?_concat_length]]
    rw [Heap.read_write_self _ _ _ (by simp [Heap.write])]
    rw [Heap.read_write_self _ _ _ (by simp [Heap.write])]
    rw [Heap.read_write_self _ _ _ (by simp [Heap.write])]
    rw [Heap.read_write_self _ _ _ (by simp [Heap.write])]
    rfl

/-- C9 witness: preparing the single row of a concrete store leaves the
original cell intact. -/
theorem c9_witness :
    (prepareAllH {} [] ⟨[[("a", Value.vNum 1)]]⟩ [0]).1.read 0 =
      Heap.read ⟨[[("a", Value.vNum 1)]]⟩ 0 :=
  (c9_originals_not_mutated {} [] ⟨[[("a", Value.vNum 1)]]⟩ [0] 0
    (by decide)).1

theorem list_any_congr {α : Type} (l : List α) (p q : α → Bool)
    (h : ∀ a ∈ l, p a = q a) : l.any p = l.any q := by
  induction l with
  | nil => rfl
  | cons a t ih =>
    simp only [List.any_cons]
    rw [h a (by simp), ih (fun x hx => h x (by simp [hx]))]

theorem mapHas_mapSet (m : IdMap) (k : String) (v : Nat) (s : String) :
    mapHas (mapSet m k v) s = ((k == s) || mapHas m s) := by
  unfold mapSet
  cases h : mapHas m k with
  | false =>
    rw [if_neg (by simp [h])]
    unfold mapHas
    rw [List.any_append]
    simp [Bool.or_comm]
  | true =>
    rw [if_pos (by simp [h])]
    have hmap : mapHas (m.map (fun q => if q.1 == k then (k, v) else q)) s
        = mapHas m s := by
      unfold mapHas
      rw [List.any_map]
      apply list_any_congr
      intro q hq
      cases hqk : q.1 == k with
      | true =>
        have hq1 : q.1 = k := by simpa using hqk
        simp [Function.comp, hqk, hq1]
      | false => simp [Function.comp, hqk]
    rw [hmap]
    cases hks : k == s with
    | true =>
      have hk : k = s := by simpa using hks
      rw [← hk, h]
      simp
    | false => simp

theorem mapHas_buildEm_fold (xs : List DbRow) :
    ∀ (m0 : IdMap) (s : String),
      mapHas (xs.foldl (fun m x => mapSet m x.mongoText x.id) m0) s =
        (mapHas m0 s || xs.any (fun x => x.mongoText == s)) := by
  induction xs with
  | nil => intro m0 s; simp
  | cons x t ih =>
    intro m0 s
    rw [List.foldl_cons, ih, mapHas_mapSet]
    cases hx : x.mongoText == s <;> cases h0 : mapHas m0 s <;> simp [hx, h0]

theorem mapHas_buildEm (xs : List DbRow) (s : String) :
    mapHas (buildEm xs) s = xs.any (fun x => x.mongoText == s) := by
  unfold buildEm
  rw [mapHas_buildEm_fold]
  simp [mapHas]

theorem insertRowsAux_mem_of_mem (l : List JsObj) (n : Nat) (r : JsObj)
    (hr : r ∈ l) :
    ∃ y ∈ insertRowsAux n l, y.mongoText = mongoText r := by
  induction l generalizing n with
  | nil => simp at hr
  | cons a t ih =>
    rcases List.mem_cons.mp hr with h | h
    · exact ⟨⟨n, mongoText a, a⟩, by simp [insertRowsAux], by rw [h]⟩
    · obtain ⟨y, hy, hyt⟩ := ih (n + 1) h
      exact ⟨y, by simp [insertRowsAux, hy], hyt⟩

theorem insertRows_nil (d : Db) : insertRows d [] = (d, []) := by
  unfold insertRows insertRowsAux
  simp

theorem uniqueInsertOk_nil (d : Db) : uniqueInsertOk d [] = true := rfl

theorem putToPostgres_ok_branch (rows : List JsObj) (opts : PutOptions)
    (reg : Registry) (coll : String) (db : Db)
    (linkDb : List (String × JsObj)) (hne : rows.isEmpty = false)
    (huq : uniqueInsertOk db
      ((toInsertOf
          (buildEm (selectExisting db (collectMongoIds
            (prepareAll opts (ensureColl reg coll) rows).1)))
          (prepareAll opts (ensureColl reg coll) rows).1).map
        mongoText) = true) :
    putToPostgres rows opts reg coll db linkDb =
      (⟨(insertRows db
            (toInsertOf
              (buildEm (selectExisting db (collectMongoIds
                (prepareAll opts (ensureColl reg coll) rows).1)))
              (prepareAll opts (ensureColl reg coll) rows).1)).1,
        linkDb ++
          (linkPhase
            (insertRegistryUpdate coll
              (skipRegistryUpdate
                (buildEm (selectExisting db (collectMongoIds
                  (prepareAll opts (ensureColl reg coll) rows).1)))
                coll (ensureColl reg coll)
                (toSkipOf
                  (buildEm (selectExisting db (collectMongoIds
                    (prepareAll opts (ensureColl reg coll) rows).1)))
                  (prepareAll opts (ensureColl reg coll) rows).1))
              (insertRows db
                (toInsertOf
                  (buildEm (selectExisting db (collectMongoIds
                    (prepareAll opts (ensureColl reg coll) rows).1)))
                  (prepareAll opts (ensureColl reg coll) rows).1)).2)
            coll opts.links rows).1,
        insertRegistryUpdate coll
          (skipRegistryUpdate
            (buildEm (selectExisting db (collectMongoIds
              (prepareAll opts (ensureColl reg coll) rows).1)))
            coll (ensureColl reg coll)
            (toSkipOf
              (buildEm (selectExisting db (collectMongoIds
                (prepareAll opts (ensureColl reg coll) rows).1)))
              (prepareAll opts (ensureColl reg coll) rows).1))
          (insertRows db
            (toInsertOf
              (buildEm (selectExisting db (collectMongoIds
                (prepareAll opts (ensureColl reg coll) rows).1)))
              (prepareAll opts (ensureColl reg coll) rows).1)).2,
        (prepareAll opts (ensureColl reg coll) rows).2 ++
          (linkPhase
            (insertRegistryUpdate coll
              (skipRegistryUpdate
                (buildEm (selectExisting db (collectMongoIds
                  (prepareAll opts (ensureColl reg coll) rows).1)))
                coll (ensureColl reg coll)
                (toSkipOf
                  (buildEm (selectExisting db (collectMongoIds
                    (prepareAll opts (ensureColl reg coll) rows).1)))
                  (prepareAll opts (ensureColl reg coll) rows).1))
              (insertRows db
                (toInsertOf
                  (buildEm (selectExisting db (collectMongoIds
                    (prepareAll opts (ensureColl reg coll) rows).1)))
                  (prepareAll opts (ensureColl reg coll) rows).1)).2)
            coll opts.links rows).2⟩,
       Except.ok ()) := by
  rw [putToPostgres_spec rows opts reg coll db linkDb hne]
  simp [huq]

theorem putToPostgres_snd_err (rows : List JsObj) (opts : PutOptions)
    (reg : Registry) (coll : String) (db : Db)
    (linkDb : List (String × JsObj)) (hne : rows.isEmpty = false)
    (hfail : uniqueInsertOk db
      ((toInsertOf
          (buildEm (selectExisting db (collectMongoIds
            (prepareAll opts (ensureColl reg coll) rows).1)))
          (prepareAll opts (ensureColl reg coll) rows).1).map
        mongoText) = false) :
    (putToPostgres rows opts reg coll db linkDb).2 =
      Except.error "insert failed" := by
  rw [putToPostgres_spec rows opts reg coll db linkDb hne]
  simp [hfail]

theorem rerun_toInsert_nil (opts : PutOptions) (reg0 : Registry)
    (rows : List JsObj) (db : Db)
    (hstr : ∀ r ∈ (prepareAll opts reg0 rows).1,
      truthyO (r.get "mongo_id") = true →
      (valueIsStrKey (r.get "mongo_id")).isSome = true) :
    toInsertOf
      (buildEm (selectExisting
        (insertRows db
          (toInsertOf
            (buildEm (selectExisting db (collectMongoIds
              (prepareAll opts reg0 rows).1)))
            (prepareAll opts reg0 rows).1)).1
        (collectMongoIds (prepareAll opts reg0 rows).1)))
      (prepareAll opts reg0 rows).1 = [] := by
  unfold toInsertOf
  apply List.filter_eq_nil_iff.mpr
  intro r hr
  cases ht : truthyO (r.get "mongo_id") with
  | false => simp [ht]
  | true =>
    have hik := hstr r hr ht
    cases hk : valueIsStrKey (r.get "mongo_id") with
    | none => rw [hk] at hik; simp at hik
    | some s =>
      have hg : r.get "mongo_id" = some (Value.vStr s) := valueIsStrKey_some _ _ hk
      have hmid : Value.vStr s ∈ collectMongoIds (prepareAll opts reg0 rows).1 := by
        unfold collectMongoIds
        apply List.mem_filter.mpr
        refine ⟨List.mem_filterMap.mpr ⟨r, hr, hg⟩, ?_⟩
        rw [hg] at ht
        simpa [truthyO] using ht
      have hmt : s ∈ (collectMongoIds (prepareAll opts reg0 rows).1).map
          Value.toStr :=
        List.mem_map.mpr ⟨Value.vStr s, hmid, rfl⟩
      have hrow : ∃ row ∈ (insertRows db
          (toInsertOf
            (buildEm (selectExisting db (collectMongoIds
              (prepareAll opts reg0 rows).1)))
            (prepareAll opts reg0 rows).1)).1.rows,
          row.mongoText = s := by
        cases hh : emHas
            (buildEm (selectExisting db (collectMongoIds
              (prepareAll opts reg0 rows).1)))
            (r.get "mongo_id") with
        | false =>
          have hrin : r ∈ toInsertOf
              (buildEm (selectExisting db (collectMongoIds
                (prepareAll opts reg0 rows).1)))
              (prepareAll opts reg0 rows).1 :=
            List.mem_filter.mpr ⟨hr, by rw [ht, hh]; rfl⟩
          obtain ⟨y, hy, hyt⟩ := insertRowsAux_mem_of_mem _ db.nextId r hrin
          refine ⟨y, ?_, ?_⟩
          · unfold insertRows
            simp only [List.mem_append]
            exact Or.inr hy
          · rw [hyt]
            unfold mongoText
            rw [hg]
            simp [Value.toStr]
        | true =>
          have hhs : mapHas
              (buildEm (selectExisting db (collectMongoIds
                (prepareAll opts reg0 rows).1))) s = true := by
            unfold emHas at hh
            rw [hk] at hh
            exact hh
          rw [mapHas_buildEm] at hhs
          obtain ⟨row, hrowmem, hrowt⟩ := List.any_eq_true.mp hhs
          refine ⟨row, ?_, by simpa using hrowt⟩
          unfold insertRows
          simp only [List.mem_append]
          exact Or.inl (List.mem_filter.mp hrowmem).1
      obtain ⟨row, hrowmem, hrowt⟩ := hrow
      have hany : mapHas
          (buildEm (selectExisting
            (insertRows db
              (toInsertOf
                (buildEm (selectExisting db (collectMongoIds
                  (prepareAll opts reg0 rows).1)))
                (prepareAll opts reg0 rows).1)).1
            (collectMongoIds (prepareAll opts reg0 rows).1))) s = true := by
        rw [mapHas_buildEm]
        apply List.any_eq_true.mpr
        refine ⟨row, ?_, by simp [hrowt]⟩
        unfold selectExisting
        apply List.mem_filter.mpr
        refine ⟨hrowmem, ?_⟩
        rw [hrowt, List.contains_eq_any_beq]
        exact List.any_eq_true.mpr ⟨s, hmt, by simp⟩
      have hfinal : emHas
          (buildEm (selectExisting
            (insertRows db
              (toInsertOf
                (buildEm (selectExisting db (collectMongoIds
                  (prepareAll opts reg0 rows).1)))
                (prepareAll opts reg0 rows).1)).1
            (collectMongoIds (prepareAll opts reg0 rows).1)))
          (r.get "mongo_id") = true := by
        unfold emHas
        rw [hk]
        exact hany
      unfold toInsertOf at hfinal
      simp [ht, hfinal]

/-- C4: re-running the migration of a collection over an unchanged
snapshot inserts no primary rows.  If a first call succeeded (its batched
insert committed), then a second call with the same rows, options and
registry, against the database state the first call produced, also
succeeds and leaves the table exactly as the first call left it: every
prepared row's mongo_id is now present in the table, so the partition of
lines 240-246 puts every row into the skip set and the insert set is
empty.  The hypothesis that truthy mongo_id values are strings reflects
the extractor contract (get-from-mongo stores `String(o._id)`); a
non-string key would not match the text the database returns. -/
theorem c4_rerun_inserts_nothing (rows : List JsObj) (opts : PutOptions)
    (reg : Registry) (coll : String) (db : Db)
    (linkDb ldb2 : List (String × JsObj)) (res1 : PutState)
    (hstr : ∀ r ∈ (prepareAll opts (ensureColl reg coll) rows).1,
      truthyO (r.get "mongo_id") = true →
      (valueIsStrKey (r.get "mongo_id")).isSome = true)
    (h1 : putToPostgres rows opts reg coll db linkDb =
      (res1, Except.ok ())) :
    ∃ res2, putToPostgres rows opts reg coll res1.db ldb2 =
      (res2, Except.ok ()) ∧ res2.db = res1.db := by
  cases hE : rows.isEmpty with
  | true =>
    unfold putToPostgres
    rw [if_pos (by simp [hE])]
    exact ⟨⟨res1.db, ldb2, reg, []⟩, rfl, rfl⟩
  | false =>
    have hok : (putToPostgres rows opts reg coll db linkDb).2 =
        Except.ok () := by rw [h1]
    cases huq : uniqueInsertOk db
        ((toInsertOf
            (buildEm (selectExisting db (collectMongoIds
              (prepareAll opts (ensureColl reg coll) rows).1)))
            (prepareAll opts (ensureColl reg coll) rows).1).map
          mongoText) with
    | false =>
      rw [putToPostgres_snd_err rows opts reg coll db linkDb hE huq] at hok
      simp at hok
    | true =>
      have hfull := putToPostgres_ok_branch rows opts reg coll db linkDb
        hE huq
      rw [hfull] at h1
      have hdb1 : res1.db = (insertRows db
          (toInsertOf
            (buildEm (selectExisting db (collectMongoIds
              (prepareAll opts (ensureColl reg coll) rows).1)))
            (prepareAll opts (ensureColl reg coll) rows).1)).1 := by
        have hc := congrArg (fun x => x.1.db) h1
        simpa using hc.symm
      rw [hdb1]
      have hins2 := rerun_toInsert_nil opts (ensureColl reg coll) rows db
        hstr
      have huq2 : uniqueInsertOk
          (insertRows db
            (toInsertOf
              (buildEm (selectExisting db (collectMongoIds
                (prepareAll opts (ensureColl reg coll) rows).1)))
              (prepareAll opts (ensureColl reg coll) rows).1)).1
          ((toInsertOf
              (buildEm (selectExisting
                (insertRows db
                  (toInsertOf
                    (buildEm (selectExisting db (collectMongoIds
                      (prepareAll opts (ensureColl reg coll) rows).1)))
                    (prepareAll opts (ensureColl reg coll) rows).1)).1
                (collectMongoIds
                  (prepareAll opts (ensureColl reg coll) rows).1)))
              (prepareAll opts (ensureColl reg coll) rows).1).map
            mongoText) = true := by
        rw [hins2]
        rfl
      have hfull2 := putToPostgres_ok_branch rows opts reg coll
        (insertRows db
          (toInsertOf
            (buildEm (selectExisting db (collectMongoIds
              (prepareAll opts (ensureColl reg coll) rows).1)))
            (prepareAll opts (ensureColl reg coll) rows).1)).1
        ldb2 hE huq2
      refine ⟨_, hfull2, ?_⟩
      show (insertRows
        (insertRows db
          (toInsertOf
            (buildEm (selectExisting db (collectMongoIds
              (prepareAll opts (ensureColl reg coll) rows).1)))
            (prepareAll opts (ensureColl reg coll) rows).1)).1
        (toInsertOf
          (buildEm (selectExisting
            (insertRows db
              (toInsertOf
                (buildEm (selectExisting db (collectMongoIds
                  (prepareAll opts (ensureColl reg coll) rows).1)))
                (prepareAll opts (ensureColl reg coll) rows).1)).1
            (collectMongoIds
              (prepareAll opts (ensureColl reg coll) rows).1)))
          (prepareAll opts (ensureColl reg coll) rows).1)).1 =
        (insertRows db
          (toInsertOf
            (buildEm (selectExisting db (collectMongoIds
              (prepareAll opts (ensureColl reg coll) rows).1)))
            (prepareAll opts (ensureColl reg coll) rows).1)).1
      rw [hins2, insertRows_nil]

/-- C4 witness: one concrete row inserted by a first run is skipped by the
second run, which leaves the table unchanged. -/
theorem c4_witness :
    ∃ res2, putToPostgres [[("mongo_id", Value.vStr "a")]] {} [] "c"
      (putToPostgres [[("mongo_id", Value.vStr "a")]] {} [] "c"
        ⟨1, []⟩ []).1.db [] = (res2, Except.ok ()) ∧
      res2.db = (putToPostgres [[("mongo_id", Value.vStr "a")]] {} [] "c"
        ⟨1, []⟩ []).1.db :=
  c4_rerun_inserts_nothing [[("mongo_id", Value.vStr "a")]] {} [] "c"
    ⟨1, []⟩ [] []
    (putToPostgres [[("mongo_id", Value.vStr "a")]] {} [] "c" ⟨1, []⟩ []).1
    (by decide) (by decide)
